import Mathlib

/-!
# Verification of the slog journald drain core

This file gives a shallow embedding of the record-to-field pipeline of the
journald drain for slog (file `src/lib.rs`): the key sanitizer
(`SanitizedKey`'s `Display` impl), the severity-to-priority mapping
(`level_to_priority`), the field serializer (`Serializer` with its `emit_*`
methods, including the error-chain rendering of `emit_error` and
`ErrorAsFmt`), and the drain's `log` method that assembles one event's field
list and hands it to `journal_send`.

Strings are modelled as Lean `String` (a list of Unicode scalar values,
matching Rust's `str::chars` iteration); machine integers that are only ever
rendered to decimal text are modelled as `Nat`/`Int`.
-/

namespace SlogJournald

/-! ## Key sanitizer

Rust source (`impl Display for SanitizedKey`): a single left-to-right pass
over `key.chars()` with a `found_non_underscore` flag.  The match arms are
Rust char-range patterns, i.e. tests on the Unicode code point:
`'A'..='Z'` is 65..=90, `'0'..='9'` is 48..=57, `'a'..='z'` is 97..=122.
-/

/-- Code points 65..=90, the Rust pattern `'A'..='Z'`. -/
def isAsciiUpper (c : Char) : Bool :=
  65 ≤ c.toNat && c.toNat ≤ 90

/-- Code points 48..=57, the Rust pattern `'0'..='9'`. -/
def isAsciiDigit (c : Char) : Bool :=
  48 ≤ c.toNat && c.toNat ≤ 57

/-- Code points 97..=122, the Rust pattern `'a'..='z'`. -/
def isAsciiLower (c : Char) : Bool :=
  97 ≤ c.toNat && c.toNat ≤ 122

/-- The combined first match arm `'A'..='Z' | '0'..='9'`. -/
def isUpperDigit (c : Char) : Bool :=
  isAsciiUpper c || isAsciiDigit c

/-- Rust's `char::to_ascii_uppercase`: subtract 32 from a lowercase ASCII
letter's code point, leave every other character unchanged. -/
def toAsciiUppercase (c : Char) : Char :=
  if isAsciiLower c then Char.ofNat (c.toNat - 32) else c

/-- The character loop of `SanitizedKey::fmt`.  `seen` is the
`found_non_underscore` flag: valid characters are emitted (lowercase
uppercased) and set the flag; any other character becomes a single
underscore when the flag is set and is dropped otherwise. -/
def sanitizeChars : Bool → List Char → List Char
  | _, [] => []
  | seen, c :: cs =>
    if isUpperDigit c then
      c :: sanitizeChars true cs
    else if isAsciiLower c then
      toAsciiUppercase c :: sanitizeChars true cs
    else if seen then
      '_' :: sanitizeChars seen cs
    else
      sanitizeChars seen cs

/-- `SanitizedKey(key).to_string()`: run the loop over the key's characters
with the flag initially false. -/
def sanitizeKey (s : String) : String :=
  ⟨sanitizeChars false s.data⟩

/-! ## Field-name grammar `^[A-Z0-9][A-Z0-9_]*$` -/

/-- A character allowed anywhere in a sanitized key: uppercase ASCII letter,
digit, or underscore. -/
def isKeyChar (c : Char) : Bool :=
  isUpperDigit c || c == '_'

/-- Whether a character list matches `^[A-Z0-9][A-Z0-9_]*$`: nonempty, first
character an uppercase letter or digit, the rest key characters. -/
def matchesKeyGrammarChars : List Char → Bool
  | [] => false
  | c :: cs => isUpperDigit c && cs.all isKeyChar

/-- Whether a string matches `^[A-Z0-9][A-Z0-9_]*$`. -/
def matchesKeyGrammar (s : String) : Bool :=
  matchesKeyGrammarChars s.data

/-! ### Character-level facts -/

theorem toNat_ofNat_valid (n : Nat) (h : n.isValidChar) :
    (Char.ofNat n).toNat = n := by
  have : n < 2 ^ 32 := by
    rcases h with h | h <;> omega
  simp [Char.ofNat, h, Char.ofNatAux, Char.toNat, UInt32.toNat]

theorem toNat_toAsciiUppercase_of_lower {c : Char} (h : isAsciiLower c = true) :
    (toAsciiUppercase c).toNat = c.toNat - 32 := by
  have hn : 97 ≤ c.toNat ∧ c.toNat ≤ 122 := by
    simpa [isAsciiLower] using h
  have hv : (c.toNat - 32).isValidChar := by
    left; omega
  simp [toAsciiUppercase, h, toNat_ofNat_valid _ hv]

theorem isAsciiUpper_toAsciiUppercase {c : Char} (h : isAsciiLower c = true) :
    isAsciiUpper (toAsciiUppercase c) = true := by
  have hn : 97 ≤ c.toNat ∧ c.toNat ≤ 122 := by
    simpa [isAsciiLower] using h
  have ht := toNat_toAsciiUppercase_of_lower h
  simp [isAsciiUpper, ht]
  omega

theorem isUpperDigit_toAsciiUppercase {c : Char} (h : isAsciiLower c = true) :
    isUpperDigit (toAsciiUppercase c) = true := by
  simp [isUpperDigit, isAsciiUpper_toAsciiUppercase h]

theorem isKeyChar_of_isUpperDigit {c : Char} (h : isUpperDigit c = true) :
    isKeyChar c = true := by
  simp [isKeyChar, h]

theorem isUpperDigit_of_not_lower {c : Char} (h : isKeyChar c = true)
    (h2 : (c == '_') = false) : isUpperDigit c = true := by
  simp [isKeyChar, h2] at h
  exact h

/-! ### Structure of sanitizer output -/

/-- Every character the sanitizer emits is an uppercase letter, a digit, or
an underscore. -/
theorem sanitizeChars_all_keyChar (l : List Char) :
    ∀ seen, ∀ c ∈ sanitizeChars seen l, isKeyChar c = true := by
  induction l with
  | nil => intro seen c hc; simp [sanitizeChars] at hc
  | cons a l ih =>
    intro seen c hc
    by_cases h1 : isUpperDigit a = true
    · rw [sanitizeChars, if_pos h1] at hc
      rcases List.mem_cons.mp hc with hc | hc
      · exact hc ▸ isKeyChar_of_isUpperDigit h1
      · exact ih true c hc
    · by_cases h2 : isAsciiLower a = true
      · rw [sanitizeChars, if_neg h1, if_pos h2] at hc
        rcases List.mem_cons.mp hc with hc | hc
        · exact hc ▸ isKeyChar_of_isUpperDigit (isUpperDigit_toAsciiUppercase h2)
        · exact ih true c hc
      · by_cases h3 : seen = true
        · subst h3
          rw [sanitizeChars, if_neg h1, if_neg h2, if_pos rfl] at hc
          rcases List.mem_cons.mp hc with hc | hc
          · subst hc; decide
          · exact ih true c hc
        · rw [sanitizeChars, if_neg h1, if_neg h2, if_neg h3] at hc
          exact ih seen c hc

/-- With the flag still unset, the output is empty or starts with an
uppercase letter or digit (never an underscore). -/
theorem sanitizeChars_false_head (l : List Char) :
    sanitizeChars false l = [] ∨
      ∃ c cs, sanitizeChars false l = c :: cs ∧ isUpperDigit c = true := by
  induction l with
  | nil => left; rfl
  | cons a l ih =>
    by_cases h1 : isUpperDigit a = true
    · right
      exact ⟨a, sanitizeChars true l, by rw [sanitizeChars, if_pos h1], h1⟩
    · by_cases h2 : isAsciiLower a = true
      · right
        refine ⟨toAsciiUppercase a, sanitizeChars true l, ?_,
          isUpperDigit_toAsciiUppercase h2⟩
        rw [sanitizeChars, if_neg h1, if_pos h2]
      · have : sanitizeChars false (a :: l) = sanitizeChars false l := by
          rw [sanitizeChars, if_neg h1, if_neg h2]
          simp
        rw [this]
        exact ih

theorem isUpperDigit_false_of_lower {c : Char} (h : isAsciiLower c = true) :
    isUpperDigit c = false := by
  simp only [isAsciiLower, Bool.and_eq_true, decide_eq_true_eq] at h
  simp only [isUpperDigit, isAsciiUpper, isAsciiDigit, Bool.or_eq_false_iff,
    Bool.and_eq_false_iff, decide_eq_false_iff_not]
  omega

/-- Once every character of the list is already a key character, the pass
with the flag set is the identity. -/
theorem sanitizeChars_true_fixed (l : List Char)
    (h : ∀ c ∈ l, isKeyChar c = true) : sanitizeChars true l = l := by
  induction l with
  | nil => rfl
  | cons a l ih =>
    have ha := h a (List.mem_cons_self a l)
    have htail := ih fun c hc => h c (List.mem_cons_of_mem a hc)
    by_cases h1 : isUpperDigit a = true
    · rw [sanitizeChars, if_pos h1, htail]
    · have ha2 : a = '_' := by
        have := isUpperDigit_of_not_lower ha
        by_cases hb : (a == '_') = true
        · exact eq_of_beq hb
        · exact absurd (this (Bool.eq_false_iff.mpr hb)) h1
      subst ha2
      have e1 : isUpperDigit '_' = false := by decide
      have e2 : isAsciiLower '_' = false := by decide
      rw [sanitizeChars, e1, e2]
      simp [htail]

/-- Running the full sanitizer pass twice equals running it once. -/
theorem sanitizeChars_false_idem (l : List Char) :
    sanitizeChars false (sanitizeChars false l) = sanitizeChars false l := by
  rcases sanitizeChars_false_head l with h | ⟨c, cs, h, hc⟩
  · rw [h]; rfl
  · rw [h, sanitizeChars, if_pos hc]
    congr 1
    apply sanitizeChars_true_fixed
    intro x hx
    exact sanitizeChars_all_keyChar l false x (h ▸ List.mem_cons_of_mem c hx)

/-- C1: for every input string, the sanitizer's output either matches
`^[A-Z0-9][A-Z0-9_]*$` or is the empty string; in particular it never
begins with an underscore and contains only uppercase ASCII letters,
digits and underscores. -/
theorem sanitizeKey_grammar (s : String) :
    (sanitizeKey s = "" ∨ matchesKeyGrammar (sanitizeKey s) = true) ∧
    (∀ c ∈ (sanitizeKey s).data, isKeyChar c = true) ∧
    ∀ cs, (sanitizeKey s).data ≠ '_' :: cs := by
  have hdata : (sanitizeKey s).data = sanitizeChars false s.data := rfl
  refine ⟨?_, ?_, ?_⟩
  · rcases sanitizeChars_false_head s.data with h | ⟨c, cs, h, hc⟩
    · left
      show (⟨sanitizeChars false s.data⟩ : String) = ""
      rw [h]
    · right
      show matchesKeyGrammarChars (sanitizeChars false s.data) = true
      rw [h, matchesKeyGrammarChars]
      simp only [hc, Bool.true_and, List.all_eq_true]
      intro x hx
      exact sanitizeChars_all_keyChar s.data false x (h ▸ List.mem_cons_of_mem c hx)
  · intro c hc
    exact sanitizeChars_all_keyChar s.data false c (hdata ▸ hc)
  · intro cs hcs
    rw [hdata] at hcs
    rcases sanitizeChars_false_head s.data with h | ⟨c, cs2, h, hc⟩
    · rw [h] at hcs
      exact List.noConfusion hcs
    · rw [h] at hcs
      injection hcs with h1 h2
      subst h1
      revert hc
      decide

/-- C5: the sanitizer is idempotent — sanitizing an already-sanitized key
returns it unchanged. -/
theorem sanitizeKey_idem (s : String) :
    sanitizeKey (sanitizeKey s) = sanitizeKey s :=
  congrArg String.mk (sanitizeChars_false_idem s.data)

/-! ### Case-insensitivity -/

/-- Two characters that are equal up to ASCII letter case: either equal, or
one is the ASCII-lowercase form of the other. -/
def charCaseEq (a b : Char) : Prop :=
  a = b ∨ (isAsciiLower a = true ∧ b = toAsciiUppercase a) ∨
    (isAsciiLower b = true ∧ a = toAsciiUppercase b)

theorem sanitizeChars_congr_case {l₁ l₂ : List Char}
    (h : List.Forall₂ charCaseEq l₁ l₂) :
    ∀ seen, sanitizeChars seen l₁ = sanitizeChars seen l₂ := by
  induction h with
  | nil => intro seen; rfl
  | @cons a b l₁ l₂ hab htail ih =>
    intro seen
    rcases hab with rfl | ⟨hla, rfl⟩ | ⟨hlb, rfl⟩
    · by_cases h1 : isUpperDigit a = true
      · rw [sanitizeChars, if_pos h1, sanitizeChars, if_pos h1, ih true]
      · by_cases h2 : isAsciiLower a = true
        · rw [sanitizeChars, if_neg h1, if_pos h2,
            sanitizeChars, if_neg h1, if_pos h2, ih true]
        · by_cases h3 : seen = true
          · subst h3
            rw [sanitizeChars, if_neg h1, if_neg h2, if_pos rfl,
              sanitizeChars, if_neg h1, if_neg h2, if_pos rfl, ih true]
          · have h3f : seen = false := Bool.eq_false_iff.mpr h3
            subst h3f
            rw [sanitizeChars, if_neg h1, if_neg h2,
              sanitizeChars, if_neg h1, if_neg h2]
            simp [ih false]
    · have h1 : isUpperDigit a = false := isUpperDigit_false_of_lower hla
      have h1b : isUpperDigit (toAsciiUppercase a) = true :=
        isUpperDigit_toAsciiUppercase hla
      rw [sanitizeChars, h1, if_pos hla, sanitizeChars, if_pos h1b, ih true]
      simp
    · have h1 : isUpperDigit b = false := isUpperDigit_false_of_lower hlb
      have h1b : isUpperDigit (toAsciiUppercase b) = true :=
        isUpperDigit_toAsciiUppercase hlb
      rw [sanitizeChars, if_pos h1b, sanitizeChars, h1, if_pos hlb, ih true]
      simp

/-- C6: the sanitizer identifies inputs differing only in ASCII letter
case, and the representative literals sanitize exactly as listed. -/
theorem sanitizeKey_case_insensitive :
    (∀ s t : String, List.Forall₂ charCaseEq s.data t.data →
      sanitizeKey s = sanitizeKey t) ∧
    sanitizeKey "_A" = "A" ∧ sanitizeKey "A__A" = "A__A" ∧
    sanitizeKey "!*" = "" ∧ sanitizeKey "(A)" = "A_" ∧
    sanitizeKey "aBcDe" = "ABCDE" := by
  refine ⟨?_, by decide, by decide, by decide, by decide, by decide⟩
  intro s t h
  exact congrArg String.mk (sanitizeChars_congr_case h false)

/-- Instance of the case-insensitivity theorem at a concrete pair of
inputs differing only in letter case. -/
theorem sanitizeKey_case_insensitive_witness :
    sanitizeKey "aB" = sanitizeKey "Ab" := by
  apply sanitizeKey_case_insensitive.1 "aB" "Ab"
  show List.Forall₂ charCaseEq ['a', 'B'] ['A', 'b']
  refine .cons (Or.inr (Or.inl ⟨by decide, by decide⟩)) ?_
  refine .cons (Or.inr (Or.inr ⟨by decide, by decide⟩)) .nil

/-! ## Severity and priority -/

/-- slog's `Level`: the six severities. -/
inductive Level where
  | critical
  | error
  | warning
  | info
  | debug
  | trace
  deriving DecidableEq

/-- libsystemd's `Priority` (syslog-derived daemon levels). -/
inductive Priority where
  | emergency
  | alert
  | critical
  | error
  | warning
  | notice
  | info
  | debug
  deriving DecidableEq

/-- `level_to_priority` from `src/lib.rs`. -/
def level_to_priority : Level → Priority
  | .critical => .critical
  | .error => .error
  | .warning => .warning
  | .info => .notice
  | .debug => .info
  | .trace => .debug

/-! ## Error values and their rendering -/

/-- A Rust `std::error::Error` value as the drain observes it: its own
`Display` text, the raw OS error code when the error downcasts to an
`io::Error` carrying one, and the next error of the `cause`/`source`
chain when there is one. -/
inductive RsError where
  | base (text : String) (rawOs : Option Int)
  | cons (text : String) (rawOs : Option Int) (cause : RsError)
  deriving DecidableEq

/-- The error's own `Display` text. -/
def RsError.text : RsError → String
  | .base t _ => t
  | .cons t _ _ => t

/-- Number of causal steps strictly below the top error. -/
def RsError.causalSteps : RsError → Nat
  | .base _ _ => 0
  | .cons _ _ c => c.causalSteps + 1

/-- Number of iterations of the `while let Some` loops over the chain:
the error itself plus its causal steps. -/
def RsError.chainLength : RsError → Nat
  | .base _ _ => 1
  | .cons _ _ c => c.chainLength + 1

/-- The loop of `ErrorAsFmt::fmt` after the first write: `": {source}"`
for each element of the cause chain below the error. -/
def causesSuffix : RsError → String
  | .base _ _ => ""
  | .cons _ _ c => ": " ++ c.text ++ causesSuffix c

/-- `ErrorAsFmt(error).to_string()`: the error's display text followed by
every cause, each preceded by `": "`. -/
def errorAsFmt (e : RsError) : String :=
  e.text ++ causesSuffix e

/-! ## Serializer -/

/-- The two cargo features (`log_errno`, `log_error_sources`) guarding the
enrichment blocks of `emit_error`, modelled as explicit flags. -/
structure Config where
  log_errno : Bool
  log_error_sources : Bool
  deriving DecidableEq

/-- One assembled field: key and rendered value. -/
abbrev Field := String × String

/-- slog's `Error` enumeration (payloads dropped — the drain only wraps and
forwards it). -/
inductive SlogError where
  | ioError
  | fmtError
  | other
  deriving DecidableEq

/-- libsystemd's `SdError`. -/
inductive SdError where
  | mk (msg : String)
  deriving DecidableEq

/-- The drain's `Error` type: transport failure or serialization failure. -/
inductive Error where
  | Journald (e : SdError)
  | Serialization (e : SlogError)
  deriving DecidableEq

/-- The drain's `Serializer`: the growing ordered field list of one event. -/
structure Serializer where
  fields : List Field
  deriving DecidableEq

/-- `Serializer::new`. -/
def Serializer.new : Serializer := ⟨[]⟩

/-- `Serializer::add_field`: push a (key, value) pair without sanitizing. -/
def Serializer.add_field (s : Serializer) (key value : String) : Serializer :=
  ⟨s.fields ++ [(key, value)]⟩

/-- `Serializer::emit`: sanitize the key, push the rendered value, return
`Ok`. -/
def Serializer.emit (s : Serializer) (key : String) (val : String) :
    Except SlogError Serializer :=
  .ok (s.add_field (sanitizeKey key) val)

/-- The closed set of slog value shapes the `Serializer` handles.  The
integer widths `u8..u64`/`usize` (resp. `i8..i64`/`isize`) of the source
all render through the same decimal `to_string`, so they are collapsed
into `uint` (resp. `int`); `str` also covers `emit_arguments`, whose
pre-formatted text reaches `emit` as a plain string. -/
inductive Value where
  | unit
  | none
  | bool (b : Bool)
  | char (c : Char)
  | uint (n : Nat)
  | int (i : Int)
  | str (s : String)
  | error (e : RsError)
  deriving DecidableEq

/-- `emit_unit`: the unit value renders as the empty string. -/
def Serializer.emit_unit (s : Serializer) (key : String) :
    Except SlogError Serializer :=
  s.emit key ""

/-- `emit_none`: the absent marker renders as the literal text `None`. -/
def Serializer.emit_none (s : Serializer) (key : String) :
    Except SlogError Serializer :=
  s.emit key "None"

/-- `emit_bool`. -/
def Serializer.emit_bool (s : Serializer) (key : String) (b : Bool) :
    Except SlogError Serializer :=
  s.emit key (toString b)

/-- `emit_char`. -/
def Serializer.emit_char (s : Serializer) (key : String) (c : Char) :
    Except SlogError Serializer :=
  s.emit key (toString c)

/-- The unsigned integer emitters. -/
def Serializer.emit_uint (s : Serializer) (key : String) (n : Nat) :
    Except SlogError Serializer :=
  s.emit key (toString n)

/-- The signed integer emitters. -/
def Serializer.emit_int (s : Serializer) (key : String) (i : Int) :
    Except SlogError Serializer :=
  s.emit key (toString i)

/-- `emit_str` (and `emit_arguments` on its formatted text). -/
def Serializer.emit_str (s : Serializer) (key : String) (v : String) :
    Except SlogError Serializer :=
  s.emit key v

/-- The `log_errno` block of `emit_error`: walk the chain from the error
itself and push an `ERRNO` field for every element carrying a raw OS error
code. -/
def errnoFields : RsError → List Field
  | .base _ o =>
    match o with
    | some n => [("ERRNO", toString n)]
    | none => []
  | .cons _ o c =>
    (match o with
     | some n => [("ERRNO", toString n)]
     | none => []) ++ errnoFields c

/-- The `log_error_sources` loop of `emit_error`: one `ERROR_SOURCE_{d}`
field per element of the chain (the error itself included), `d` counting
up from the given start. -/
def sourceFieldsFrom : RsError → Nat → List Field
  | .base t _, d => [("ERROR_SOURCE_" ++ toString d, t)]
  | .cons t _ c, d => ("ERROR_SOURCE_" ++ toString d, t) :: sourceFieldsFrom c (d + 1)

/-- `Serializer::emit_error` under feature set `cfg`: optionally the
`ERRNO` fields, optionally the `ERROR_SOURCE_*` fields followed by
`ERROR_SOURCE_DEPTH`, then the primary field via `emit_arguments` on
`ErrorAsFmt`. -/
def Serializer.emit_error (cfg : Config) (s : Serializer) (key : String)
    (e : RsError) : Except SlogError Serializer :=
  let s1 : Serializer := if cfg.log_errno then ⟨s.fields ++ errnoFields e⟩ else s
  let s2 : Serializer :=
    if cfg.log_error_sources then
      ⟨s1.fields ++ sourceFieldsFrom e 0 ++
        [("ERROR_SOURCE_DEPTH", toString e.chainLength)]⟩
    else s1
  s2.emit key (errorAsFmt e)

/-- One call of the slog `Serializer` trait, dispatched on the value
shape. -/
def serializeValue (cfg : Config) (s : Serializer) (key : String) :
    Value → Except SlogError Serializer
  | .unit => s.emit_unit key
  | .none => s.emit_none key
  | .bool b => s.emit_bool key b
  | .char c => s.emit_char key c
  | .uint n => s.emit_uint key n
  | .int i => s.emit_int key i
  | .str v => s.emit_str key v
  | .error e => Serializer.emit_error cfg s key e

/-! ## Attribute sources and the drain -/

/-- One step of an attribute source's `serialize` run: either the source
emits a (key, value) pair into the drain's serializer, or the source
itself fails with a slog error.  Source failure is the only failure path:
the drain's own emit methods always return `Ok`. -/
inductive KVItem where
  | pair (key : String) (val : Value)
  | fail (e : SlogError)
  deriving DecidableEq

/-- Whether the item is a source failure. -/
def isFail : KVItem → Bool
  | .pair _ _ => false
  | .fail _ => true

/-- `KV::serialize` of one attribute source against the drain's
serializer: emit each pair in order; a source failure aborts with its
error. -/
def serializeKV (cfg : Config) : Serializer → List KVItem → Except SlogError Serializer
  | s, [] => .ok s
  | s, .pair k v :: rest =>
    match serializeValue cfg s k v with
    | .ok s2 => serializeKV cfg s2 rest
    | .error e => .error e
  | _, .fail e :: _ => .error e

/-- The data of one slog `Record` as the drain reads it: source location,
level, lazily-formatted message, and the event-local key/value source
(`info.kv()`). -/
structure RecordInfo where
  file : String
  line : Nat
  module : String
  function : String
  level : Level
  msg : String
  kv : List KVItem
  deriving DecidableEq

/-- One invocation of `journal_send`: the priority and the message are its
own parameters, separate from the field list. -/
structure SendCall where
  priority : Priority
  message : String
  fields : List Field
  deriving DecidableEq

/-- `JournaldDrain::log`.  The external `journal_send` is a function
argument; the second component of the result lists the transport
invocations the call performed (empty or a single call). -/
def JournaldDrain.log (cfg : Config) (send : SendCall → Except SdError Unit)
    (info : RecordInfo) (logger_values : List KVItem) :
    Except Error Unit × List SendCall :=
  let s := Serializer.new
  let s := s.add_field "CODE_FILE" info.file
  let s := s.add_field "CODE_LINE" (toString info.line)
  let s := s.add_field "CODE_MODULE" info.module
  let s := s.add_field "CODE_FUNCTION" info.function
  match serializeKV cfg s logger_values with
  | .error e => (.error (.Serialization e), [])
  | .ok s1 =>
    match serializeKV cfg s1 info.kv with
    | .error e => (.error (.Serialization e), [])
    | .ok s2 =>
      let call : SendCall := ⟨level_to_priority info.level, info.msg, s2.fields⟩
      (match send call with
       | .ok _ => .ok ()
       | .error err => .error (.Journald err), [call])

/-! ## Pure characterizations of the serializer runs -/

/-- The fields one (key, value) pair contributes, in order. -/
def emitFields (cfg : Config) (key : String) : Value → List Field
  | .unit => [(sanitizeKey key, "")]
  | .none => [(sanitizeKey key, "None")]
  | .bool b => [(sanitizeKey key, toString b)]
  | .char c => [(sanitizeKey key, toString c)]
  | .uint n => [(sanitizeKey key, toString n)]
  | .int i => [(sanitizeKey key, toString i)]
  | .str v => [(sanitizeKey key, v)]
  | .error e =>
    (if cfg.log_errno then errnoFields e else []) ++
    (if cfg.log_error_sources then
      sourceFieldsFrom e 0 ++ [("ERROR_SOURCE_DEPTH", toString e.chainLength)]
     else []) ++
    [(sanitizeKey key, errorAsFmt e)]

/-- All fields a failure-free item list contributes, in order. -/
def pureFields (cfg : Config) : List KVItem → List Field
  | [] => []
  | .pair k v :: rest => emitFields cfg k v ++ pureFields cfg rest
  | .fail _ :: rest => pureFields cfg rest

/-- The four fixed diagnostic fields `log` pushes first. -/
def fixedFields (info : RecordInfo) : List Field :=
  [("CODE_FILE", info.file), ("CODE_LINE", toString info.line),
   ("CODE_MODULE", info.module), ("CODE_FUNCTION", info.function)]

/-- Whether the drain call failed with a `Serialization` error. -/
def isSerializationFailure : Except Error Unit → Bool
  | .error (.Serialization _) => true
  | _ => false

theorem serializeValue_eq (cfg : Config) (s : Serializer) (k : String)
    (v : Value) :
    serializeValue cfg s k v = .ok ⟨s.fields ++ emitFields cfg k v⟩ := by
  cases v with
  | error e =>
    simp only [serializeValue, Serializer.emit_error, Serializer.emit,
      Serializer.add_field, emitFields]
    cases he : cfg.log_errno <;> cases hs : cfg.log_error_sources <;>
      simp [List.append_assoc]
  | unit => rfl
  | none => rfl
  | bool b => rfl
  | char c => rfl
  | uint n => rfl
  | int i => rfl
  | str v => rfl

theorem serializeKV_eq_of_noFail (cfg : Config) (items : List KVItem)
    (h : ∀ i ∈ items, isFail i = false) :
    ∀ s : Serializer,
      serializeKV cfg s items = .ok ⟨s.fields ++ pureFields cfg items⟩ := by
  induction items with
  | nil => intro s; simp [serializeKV, pureFields]
  | cons a rest ih =>
    intro s
    cases a with
    | pair k v =>
      have hrest : ∀ i ∈ rest, isFail i = false :=
        fun i hi => h i (List.mem_cons_of_mem _ hi)
      simp only [serializeKV, serializeValue_eq, pureFields, ih hrest]
      simp [List.append_assoc]
    | fail e =>
      exact absurd (h _ (List.mem_cons_self _ _)) (by simp [isFail])

theorem serializeKV_error_of_fail (cfg : Config) (items : List KVItem)
    (h : ∃ e, KVItem.fail e ∈ items) :
    ∀ s : Serializer, ∃ e2, serializeKV cfg s items = .error e2 := by
  induction items with
  | nil =>
    intro s
    rcases h with ⟨e, he⟩
    simp at he
  | cons a rest ih =>
    intro s
    cases a with
    | fail e => exact ⟨e, rfl⟩
    | pair k v =>
      have h2 : ∃ e, KVItem.fail e ∈ rest := by
        rcases h with ⟨e, he⟩
        rcases List.mem_cons.mp he with he | he
        · exact absurd he (by simp)
        · exact ⟨e, he⟩
      simp only [serializeKV, serializeValue_eq]
      exact ih h2 _

/-- `log` beta-reduced to its two serialization steps and the send. -/
theorem log_eq_match (cfg : Config) (send : SendCall → Except SdError Unit)
    (info : RecordInfo) (lv : List KVItem) :
    JournaldDrain.log cfg send info lv =
      match serializeKV cfg ⟨fixedFields info⟩ lv with
      | .error e => (.error (.Serialization e), [])
      | .ok s1 =>
        match serializeKV cfg s1 info.kv with
        | .error e => (.error (.Serialization e), [])
        | .ok s2 =>
          let call : SendCall := ⟨level_to_priority info.level, info.msg, s2.fields⟩
          (match send call with
           | .ok _ => .ok ()
           | .error err => .error (.Journald err), [call]) := rfl

/-! ## Claim theorems on the mapper, serializer and drain -/

/-- C3: the severity-to-priority mapping is the fixed table
Critical→CRIT, Error→ERR, Warning→WARNING, Info→NOTICE, Debug→INFO,
Trace→DEBUG (a total function on the six-element enumeration, being a
Lean function over `Level`). -/
theorem level_to_priority_table :
    level_to_priority .critical = .critical ∧
    level_to_priority .error = .error ∧
    level_to_priority .warning = .warning ∧
    level_to_priority .info = .notice ∧
    level_to_priority .debug = .info ∧
    level_to_priority .trace = .debug :=
  ⟨rfl, rfl, rfl, rfl, rfl, rfl⟩

/-- C9: `emit_unit` appends a field whose rendered value is the empty
string, `emit_none` appends one whose rendered value is the literal text
`None`, and both return `Ok` for every key and serializer state. -/
theorem emit_unit_none_ok (s : Serializer) (key : String) :
    s.emit_unit key = .ok ⟨s.fields ++ [(sanitizeKey key, "")]⟩ ∧
    s.emit_none key = .ok ⟨s.fields ++ [(sanitizeKey key, "None")]⟩ :=
  ⟨rfl, rfl⟩

/-- C2: if any attribute source (ancestor values or event-local pairs)
contains a failing enumeration step, the log call returns a Serialization
error and performs no transport call at all. -/
theorem log_serialization_failure (cfg : Config)
    (send : SendCall → Except SdError Unit) (info : RecordInfo)
    (lv : List KVItem)
    (h : (∃ e, KVItem.fail e ∈ lv) ∨ (∃ e, KVItem.fail e ∈ info.kv)) :
    isSerializationFailure (JournaldDrain.log cfg send info lv).1 = true ∧
    (JournaldDrain.log cfg send info lv).2 = [] := by
  rw [log_eq_match]
  rcases h with he | he
  · obtain ⟨e2, h2⟩ := serializeKV_error_of_fail cfg lv he ⟨fixedFields info⟩
    rw [h2]
    exact ⟨rfl, rfl⟩
  · cases hres : serializeKV cfg ⟨fixedFields info⟩ lv with
    | error e2 => exact ⟨rfl, rfl⟩
    | ok s1 =>
      dsimp only
      obtain ⟨e2, h2⟩ := serializeKV_error_of_fail cfg info.kv he s1
      rw [h2]
      exact ⟨rfl, rfl⟩

/-- Instance of the serialization-failure theorem: one failing event-local
source step, empty ancestor list — the call reports Serialization failure
and the transport is never invoked. -/
theorem log_serialization_failure_witness :
    isSerializationFailure (JournaldDrain.log ⟨false, false⟩ (fun _ => .ok ())
      ⟨"file.rs", 1, "m", "f", .info, "msg", [.fail .other]⟩ []).1 = true ∧
    (JournaldDrain.log ⟨false, false⟩ (fun _ => .ok ())
      ⟨"file.rs", 1, "m", "f", .info, "msg", [.fail .other]⟩ []).2 = [] :=
  log_serialization_failure ⟨false, false⟩ (fun _ => .ok ())
    ⟨"file.rs", 1, "m", "f", .info, "msg", [.fail .other]⟩ []
    (Or.inr ⟨.other, List.mem_singleton.mpr rfl⟩)

/-- C7: with both enrichment features disabled, `emit_error` appends
exactly one field whose value is the error's own display text followed by
each cause of the chain, separated by `": "`; for an error with two causal
steps the rendering is `"<top>: <cause1>: <cause2>"`. -/
theorem emit_error_default (cfg : Config) (h1 : cfg.log_errno = false)
    (h2 : cfg.log_error_sources = false) (s : Serializer) (key : String)
    (e : RsError) (t c1 c2 : String) (o1 o2 o3 : Option Int) :
    Serializer.emit_error cfg s key e =
      .ok ⟨s.fields ++ [(sanitizeKey key, errorAsFmt e)]⟩ ∧
    errorAsFmt (.cons t o1 (.cons c1 o2 (.base c2 o3))) =
      t ++ ": " ++ c1 ++ ": " ++ c2 := by
  constructor
  · simp [Serializer.emit_error, h1, h2, Serializer.emit, Serializer.add_field]
  · simp [errorAsFmt, causesSuffix, RsError.text, String.append_assoc]

/-- Instance of the default error-rendering theorem on a concrete
two-causal-step error. -/
theorem emit_error_default_witness :
    Serializer.emit_error ⟨false, false⟩ ⟨[]⟩ "err"
        (.cons "x" none (.cons "y" none (.base "z" none))) =
      .ok ⟨[] ++ [(sanitizeKey "err",
        errorAsFmt (.cons "x" none (.cons "y" none (.base "z" none))))]⟩ ∧
    errorAsFmt (.cons "x" none (.cons "y" none (.base "z" none))) =
      "x" ++ ": " ++ "y" ++ ": " ++ "z" :=
  emit_error_default ⟨false, false⟩ rfl rfl ⟨[]⟩ "err"
    (.cons "x" none (.cons "y" none (.base "z" none))) "x" "y" "z" none none none

/-! ## Error-source enrichment counts -/

theorem chainLength_eq_causalSteps (e : RsError) :
    e.chainLength = e.causalSteps + 1 := by
  induction e with
  | base t o => rfl
  | cons t o c ih => simp [RsError.chainLength, RsError.causalSteps, ih]

theorem sourceFieldsFrom_map_fst (e : RsError) :
    ∀ d, (sourceFieldsFrom e d).map Prod.fst =
      (List.range e.chainLength).map
        (fun n => "ERROR_SOURCE_" ++ toString (d + n)) := by
  induction e with
  | base t o =>
    intro d
    simp [sourceFieldsFrom, RsError.chainLength, List.range_succ]
  | cons t o c ih =>
    intro d
    rw [sourceFieldsFrom, RsError.chainLength, List.range_succ_eq_map]
    simp only [List.map_cons, List.map_map, ih (d + 1)]
    congr 1
    apply List.map_congr_left
    intro a ha
    have he : d + 1 + a = d + (a + 1) := by omega
    simp [Function.comp, he]

/-- Fields whose key has the numbered form the `log_error_sources` loop
gives out (`ERROR_SOURCE_` followed by an index, not the
`ERROR_SOURCE_DEPTH` count field). -/
def numberedSourceCount (fs : List Field) : Nat :=
  (fs.filter (fun f => "ERROR_SOURCE_".data.isPrefixOf f.1.data &&
    !(f.1 == "ERROR_SOURCE_DEPTH"))).length

/-- A concrete error with two causal steps below the top error. -/
def twoStepError : RsError :=
  .cons "x" none (.cons "y" none (.base "z" none))

/-- The serializer output for `twoStepError` with chain enrichment on. -/
def twoStepErrorFields : List Field :=
  [("ERROR_SOURCE_0", "x"), ("ERROR_SOURCE_1", "y"), ("ERROR_SOURCE_2", "z"),
   ("ERROR_SOURCE_DEPTH", "3"), ("ERR", "x: y: z")]

/-- C8 fails as stated: for an error with two causal steps and chain
enrichment enabled, `emit_error` emits three numbered `ERROR_SOURCE_n`
fields — one per chain element, the top error included — and an
`ERROR_SOURCE_DEPTH` field carrying `"3"`; not two numbered fields and a
depth of `"2"` as the claim predicts. -/
theorem emit_error_sources_cex :
    twoStepError.causalSteps = 2 ∧
    Serializer.emit_error ⟨false, true⟩ ⟨[]⟩ "err" twoStepError =
      .ok ⟨twoStepErrorFields⟩ ∧
    numberedSourceCount twoStepErrorFields = 3 ∧
    ¬ numberedSourceCount twoStepErrorFields = 2 ∧
    ("ERROR_SOURCE_DEPTH", "3") ∈ twoStepErrorFields ∧
    ¬ ("ERROR_SOURCE_DEPTH", "2") ∈ twoStepErrorFields := by
  refine ⟨by decide, rfl, by decide, by decide, by decide, by decide⟩

/-- C8 amended: with chain enrichment enabled, an error with `depth`
causal steps yields exactly `depth + 1` numbered fields `ERROR_SOURCE_0`
… `ERROR_SOURCE_depth` — one for the error itself plus one per causal
step — followed by one `ERROR_SOURCE_DEPTH` field whose value is
`depth + 1`, all before the primary field. -/
theorem emit_error_sources_amended (cfg : Config)
    (h : cfg.log_error_sources = true) (s : Serializer) (key : String)
    (e : RsError) :
    Serializer.emit_error cfg s key e =
      .ok ⟨s.fields ++ (if cfg.log_errno then errnoFields e else []) ++
        sourceFieldsFrom e 0 ++
        [("ERROR_SOURCE_DEPTH", toString (e.causalSteps + 1))] ++
        [(sanitizeKey key, errorAsFmt e)]⟩ ∧
    (sourceFieldsFrom e 0).map Prod.fst =
      (List.range (e.causalSteps + 1)).map
        (fun n => "ERROR_SOURCE_" ++ toString n) ∧
    (sourceFieldsFrom e 0).length = e.causalSteps + 1 := by
  have hmap : (sourceFieldsFrom e 0).map Prod.fst =
      (List.range (e.causalSteps + 1)).map
        (fun n => "ERROR_SOURCE_" ++ toString n) := by
    have hm := sourceFieldsFrom_map_fst e 0
    rw [chainLength_eq_causalSteps] at hm
    simpa using hm
  refine ⟨?_, hmap, ?_⟩
  · rw [Serializer.emit_error]
    cases hno : cfg.log_errno <;>
      simp [h, hno, Serializer.emit, Serializer.add_field,
        chainLength_eq_causalSteps, List.append_assoc]
  · have hl := congrArg List.length hmap
    simpa using hl

/-- Instance of the amended chain-enrichment theorem on `twoStepError`. -/
theorem emit_error_sources_amended_witness :
    Serializer.emit_error ⟨false, true⟩ ⟨[]⟩ "err" twoStepError =
      .ok ⟨([] : List Field) ++
        (if (⟨false, true⟩ : Config).log_errno then errnoFields twoStepError
         else []) ++
        sourceFieldsFrom twoStepError 0 ++
        [("ERROR_SOURCE_DEPTH", toString (twoStepError.causalSteps + 1))] ++
        [(sanitizeKey "err", errorAsFmt twoStepError)]⟩ :=
  (emit_error_sources_amended ⟨false, true⟩ rfl ⟨[]⟩ "err" twoStepError).1

/-! ## Field order and the transport boundary -/

/-- C4: when no attribute source fails, the submitted field list is
exactly the four fixed diagnostic fields — `CODE_FILE`, `CODE_LINE`,
`CODE_MODULE`, `CODE_FUNCTION`, in that order — followed by every field
of the ancestor source, followed by every field of the event-local
source, each source's pairs kept in order and emitted unconditionally
(no deduplication on colliding sanitized keys). -/
theorem log_field_order (cfg : Config) (send : SendCall → Except SdError Unit)
    (info : RecordInfo) (lv : List KVItem)
    (h1 : ∀ i ∈ lv, isFail i = false) (h2 : ∀ i ∈ info.kv, isFail i = false) :
    (JournaldDrain.log cfg send info lv).2 =
      [⟨level_to_priority info.level, info.msg,
        fixedFields info ++ pureFields cfg lv ++ pureFields cfg info.kv⟩] ∧
    (fixedFields info).map Prod.fst =
      ["CODE_FILE", "CODE_LINE", "CODE_MODULE", "CODE_FUNCTION"] := by
  constructor
  · rw [log_eq_match, serializeKV_eq_of_noFail cfg lv h1 ⟨fixedFields info⟩]
    dsimp only
    rw [serializeKV_eq_of_noFail cfg info.kv h2]
  · rfl

/-- Instance of the field-order theorem: an ancestor attribute `foo` and a
local attribute `FOO` collide after sanitization and are both submitted,
after the four diagnostic fields. -/
theorem log_field_order_witness :
    (JournaldDrain.log ⟨false, false⟩ (fun _ => .ok ())
        ⟨"file.rs", 10, "mod", "func", .info, "m", [.pair "FOO" (.str "2")]⟩
        [.pair "foo" (.str "1")]).2 =
      [⟨level_to_priority .info, "m",
        fixedFields ⟨"file.rs", 10, "mod", "func", .info, "m",
          [.pair "FOO" (.str "2")]⟩ ++
        pureFields ⟨false, false⟩ [.pair "foo" (.str "1")] ++
        pureFields ⟨false, false⟩ [.pair "FOO" (.str "2")]⟩] :=
  (log_field_order ⟨false, false⟩ (fun _ => .ok ())
    ⟨"file.rs", 10, "mod", "func", .info, "m", [.pair "FOO" (.str "2")]⟩
    [.pair "foo" (.str "1")] (by decide) (by decide)).1

/-! ### Where each key can come from -/

theorem errnoFields_key (e : RsError) : ∀ f ∈ errnoFields e, f.1 = "ERRNO" := by
  induction e with
  | base t o =>
    intro f hf
    cases o with
    | none => simp [errnoFields] at hf
    | some n =>
      simp [errnoFields] at hf
      rw [hf]
  | cons t o c ih =>
    intro f hf
    cases o with
    | none =>
      rw [errnoFields] at hf
      simp at hf
      exact ih f hf
    | some n =>
      rw [errnoFields] at hf
      simp at hf
      rcases hf with hf | hf
      · rw [hf]
      · exact ih f hf

theorem sourceFieldsFrom_key (e : RsError) :
    ∀ d, ∀ f ∈ sourceFieldsFrom e d,
      ∃ n : Nat, f.1 = "ERROR_SOURCE_" ++ toString n := by
  induction e with
  | base t o =>
    intro d f hf
    simp [sourceFieldsFrom] at hf
    exact ⟨d, by rw [hf]⟩
  | cons t o c ih =>
    intro d f hf
    rw [sourceFieldsFrom] at hf
    rcases List.mem_cons.mp hf with hf | hf
    · exact ⟨d, by rw [hf]⟩
    · exact ih (d + 1) f hf

theorem emitFields_key (cfg : Config) (k : String) (v : Value) :
    ∀ f ∈ emitFields cfg k v, f.1 = sanitizeKey k ∨ f.1 = "ERRNO" ∨
      f.1 = "ERROR_SOURCE_DEPTH" ∨
      ∃ n : Nat, f.1 = "ERROR_SOURCE_" ++ toString n := by
  intro f hf
  cases v with
  | error e =>
    rw [emitFields] at hf
    rcases List.mem_append.mp hf with hf | hf
    · rcases List.mem_append.mp hf with hf | hf
      · cases hno : cfg.log_errno with
        | false => rw [hno] at hf; simp at hf
        | true =>
          rw [hno] at hf
          rw [if_pos rfl] at hf
          exact Or.inr (Or.inl (errnoFields_key e f hf))
      · cases hsrc : cfg.log_error_sources with
        | false => rw [hsrc] at hf; simp at hf
        | true =>
          rw [hsrc] at hf
          rw [if_pos rfl] at hf
          rcases List.mem_append.mp hf with hf | hf
          · exact Or.inr (Or.inr (Or.inr (sourceFieldsFrom_key e 0 f hf)))
          · simp at hf
            exact Or.inr (Or.inr (Or.inl (by rw [hf])))
    · simp at hf
      exact Or.inl (by rw [hf])
  | unit =>
    simp [emitFields] at hf
    exact Or.inl (by rw [hf])
  | none =>
    simp [emitFields] at hf
    exact Or.inl (by rw [hf])
  | bool b =>
    simp [emitFields] at hf
    exact Or.inl (by rw [hf])
  | char c =>
    simp [emitFields] at hf
    exact Or.inl (by rw [hf])
  | uint n =>
    simp [emitFields] at hf
    exact Or.inl (by rw [hf])
  | int i =>
    simp [emitFields] at hf
    exact Or.inl (by rw [hf])
  | str v2 =>
    simp [emitFields] at hf
    exact Or.inl (by rw [hf])

theorem pureFields_key_origin (cfg : Config) (items : List KVItem) :
    ∀ f ∈ pureFields cfg items, ∃ k v, KVItem.pair k v ∈ items ∧
      (f.1 = sanitizeKey k ∨ f.1 = "ERRNO" ∨ f.1 = "ERROR_SOURCE_DEPTH" ∨
        ∃ n : Nat, f.1 = "ERROR_SOURCE_" ++ toString n) := by
  induction items with
  | nil =>
    intro f hf
    simp [pureFields] at hf
  | cons a rest ih =>
    intro f hf
    cases a with
    | fail e =>
      rw [pureFields] at hf
      obtain ⟨k, v, hkv, hk⟩ := ih f hf
      exact ⟨k, v, List.mem_cons_of_mem _ hkv, hk⟩
    | pair k v =>
      rw [pureFields] at hf
      rcases List.mem_append.mp hf with hf | hf
      · exact ⟨k, v, List.mem_cons_self _ _, emitFields_key cfg k v f hf⟩
      · obtain ⟨k2, v2, hkv, hk⟩ := ih f hf
        exact ⟨k2, v2, List.mem_cons_of_mem _ hkv, hk⟩

theorem fixedFields_key (info : RecordInfo) :
    ∀ f ∈ fixedFields info, f.1 = "CODE_FILE" ∨ f.1 = "CODE_LINE" ∨
      f.1 = "CODE_MODULE" ∨ f.1 = "CODE_FUNCTION" := by
  intro f hf
  simp [fixedFields] at hf
  rcases hf with hf | hf | hf | hf
  · exact Or.inl (by rw [hf])
  · exact Or.inr (Or.inl (by rw [hf]))
  · exact Or.inr (Or.inr (Or.inl (by rw [hf])))
  · exact Or.inr (Or.inr (Or.inr (by rw [hf])))

theorem errorSource_prefix_ne (x : String) :
    ("ERROR_SOURCE_" ++ x) ≠ "PRIORITY" ∧ ("ERROR_SOURCE_" ++ x) ≠ "MESSAGE" := by
  constructor
  · intro hqe
    have hl := congrArg String.length hqe
    rw [String.length_append] at hl
    have h13 : ("ERROR_SOURCE_" : String).length = 13 := rfl
    have h8 : ("PRIORITY" : String).length = 8 := rfl
    rw [h13, h8] at hl
    omega
  · intro hqe
    have hl := congrArg String.length hqe
    rw [String.length_append] at hl
    have h13 : ("ERROR_SOURCE_" : String).length = 13 := rfl
    have h7 : ("MESSAGE" : String).length = 7 := rfl
    rw [h13, h7] at hl
    omega

/-- C10: on the failure-free path the drain performs exactly one transport
call, in which the priority and the formatted message travel as their own
parameters beside the field list; and any field of that list named
`PRIORITY` or `MESSAGE` can only be the sanitized key of an input
attribute — no field the drain itself injects uses those names. -/
theorem log_out_of_band (cfg : Config) (send : SendCall → Except SdError Unit)
    (info : RecordInfo) (lv : List KVItem)
    (h1 : ∀ i ∈ lv, isFail i = false) (h2 : ∀ i ∈ info.kv, isFail i = false) :
    (JournaldDrain.log cfg send info lv).2 =
      [⟨level_to_priority info.level, info.msg,
        fixedFields info ++ pureFields cfg lv ++ pureFields cfg info.kv⟩] ∧
    ∀ f ∈ fixedFields info ++ pureFields cfg lv ++ pureFields cfg info.kv,
      (f.1 = "PRIORITY" ∨ f.1 = "MESSAGE") →
        ∃ k v, KVItem.pair k v ∈ lv ++ info.kv ∧ f.1 = sanitizeKey k := by
  constructor
  · rw [log_eq_match, serializeKV_eq_of_noFail cfg lv h1 ⟨fixedFields info⟩]
    dsimp only
    rw [serializeKV_eq_of_noFail cfg info.kv h2]
  · intro f hf hpm
    rcases List.mem_append.mp hf with hf | hf
    · rcases List.mem_append.mp hf with hf | hf
      · rcases fixedFields_key info f hf with hk | hk | hk | hk <;>
          rcases hpm with hp | hp <;>
          · rw [hk] at hp
            exact absurd hp (by decide)
      · obtain ⟨k, v, hkv, hkc⟩ := pureFields_key_origin cfg lv f hf
        rcases hkc with hk | hk | hk | ⟨n, hk⟩
        · exact ⟨k, v, List.mem_append.mpr (Or.inl hkv), hk⟩
        · rcases hpm with hp | hp <;>
            · rw [hk] at hp
              exact absurd hp (by decide)
        · rcases hpm with hp | hp <;>
            · rw [hk] at hp
              exact absurd hp (by decide)
        · rcases hpm with hp | hp
          · rw [hk] at hp
            exact absurd hp (errorSource_prefix_ne (toString n)).1
          · rw [hk] at hp
            exact absurd hp (errorSource_prefix_ne (toString n)).2
    · obtain ⟨k, v, hkv, hkc⟩ := pureFields_key_origin cfg info.kv f hf
      rcases hkc with hk | hk | hk | ⟨n, hk⟩
      · exact ⟨k, v, List.mem_append.mpr (Or.inr hkv), hk⟩
      · rcases hpm with hp | hp <;>
          · rw [hk] at hp
            exact absurd hp (by decide)
      · rcases hpm with hp | hp <;>
          · rw [hk] at hp
            exact absurd hp (by decide)
      · rcases hpm with hp | hp
        · rw [hk] at hp
          exact absurd hp (errorSource_prefix_ne (toString n)).1
        · rw [hk] at hp
          exact absurd hp (errorSource_prefix_ne (toString n)).2

/-- Instance of the out-of-band theorem: the single transport call carries
priority and message as separate parameters. -/
theorem log_out_of_band_witness :
    (JournaldDrain.log ⟨false, false⟩ (fun _ => .ok ())
        ⟨"file.rs", 7, "mod", "func", .debug, "hello", [.pair "k" .unit]⟩
        [.pair "a" (.str "b")]).2 =
      [⟨level_to_priority .debug, "hello",
        fixedFields ⟨"file.rs", 7, "mod", "func", .debug, "hello",
          [.pair "k" .unit]⟩ ++
        pureFields ⟨false, false⟩ [.pair "a" (.str "b")] ++
        pureFields ⟨false, false⟩ [.pair "k" .unit]⟩] :=
  (log_out_of_band ⟨false, false⟩ (fun _ => .ok ())
    ⟨"file.rs", 7, "mod", "func", .debug, "hello", [.pair "k" .unit]⟩
    [.pair "a" (.str "b")] (by decide) (by decide)).1

end SlogJournald
